import Mathlib

/-!
Verification of the `multithreaded-redis` sharded in-memory key-value store.

The Go source is shallowly embedded: Go maps become association lists,
`time.Time` / `time.Duration` become `Int` nanosecond counts, byte slices
become `List Nat`, float64 zset scores become `Rat`, and the gob encoding of
the `SerializedValue` struct is modelled at the level of its decoded content
(gob encode/decode of a plain data struct is the identity on the fields it
carries).  Each definition mirrors one function of the source; stateful
methods take and return an explicit `Store`.
-/

namespace MTRedis

/-! ## Association-list map helpers (model of Go `map`) -/

/-- Lookup in an association list (Go `m[k]` with `ok` flag). -/
def mlookup {α β : Type} [DecidableEq α] (m : List (α × β)) (k : α) : Option β :=
  match m with
  | [] => none
  | p :: rest => if p.1 = k then some p.2 else mlookup rest k

/-- Lookup with Go's zero-value default (`m[k]` without the `ok` flag). -/
def mlookupD {α β : Type} [DecidableEq α] (m : List (α × β)) (k : α) (d : β) : β :=
  (mlookup m k).getD d

/-- Go map assignment `m[k] = v`: overwrite the binding if present, else add it. -/
def minsert {α β : Type} [DecidableEq α] (m : List (α × β)) (k : α) (v : β) :
    List (α × β) :=
  match m with
  | [] => [(k, v)]
  | p :: rest => if p.1 = k then (k, v) :: rest else p :: minsert rest k v

/-- Go `delete(m, k)`: remove any binding for `k`. -/
def merase {α β : Type} [DecidableEq α] (m : List (α × β)) (k : α) : List (α × β) :=
  match m with
  | [] => []
  | p :: rest => if p.1 = k then merase rest k else p :: merase rest k

/-! ## FNV-1a 32-bit hash (`hash/fnv`, as used by `hashStr` and vnode keys) -/

/-- One step of FNV-1a 32: xor the byte in, multiply by the FNV prime mod 2^32. -/
def fnv1aStep (h b : Nat) : Nat := ((h ^^^ b) * 16777619) % 4294967296

/-- FNV-1a 32-bit hash of a byte sequence. -/
def fnv1a (bs : List Nat) : Nat := bs.foldl fnv1aStep 2166136261

/-- Byte sequence of a string.  Keys and node ids are hashed over their UTF-8
bytes in Go; this embedding uses the code points, which coincide with the
UTF-8 bytes on the ASCII strings handled throughout. -/
def strBytes (s : String) : List Nat := s.data.map Char.toNat

/-- Model of `HashRing.hashStr`: FNV-1a 32 of the string. -/
def hashStr (s : String) : Nat := fnv1a (strBytes s)

/-! ## Data model (`internal/store/store.go`, typed variant) -/

/- Wall-clock instants and deadlines are `Int` nanosecond counts
(`time.Time.UnixNano`); `0` models Go's zero `time.Time`. -/

inductive ValueType where
  | StringType | SetType | HashType | CMSType | ListType | ZSetType
deriving DecidableEq, Repr

/-- Model of `datastuctures.CountMinSketch`, restricted to its serializable data
(`Depth`, `Width`, `Table`); the derived `HashFuncs` closures are excluded from
serialization in the source (`gob:"-"`) and are a function of depth and width. -/
structure CountMinSketch where
  depth : Nat
  width : Nat
  table : List (List Nat)
deriving DecidableEq, Repr

/-- The tagged `Value` struct.  Go `map`s become association lists and the set
becomes a duplicate-free member list; zset float64 scores are modelled as
rationals.  The transient `Expiration`/`LastAccess` bookkeeping written by
`restoreFromDump` is not part of the typed `Value` struct in `store.go` and is
not observable through any store operation (deadlines live in the `ttl` map),
so it is not modelled. -/
structure Value where
  typ : ValueType
  data : List Nat
  set : List String
  hash : List (String × String)
  cms : Option CountMinSketch
  list : List String
  zset : List (String × Rat)
deriving DecidableEq, Repr

/-- Go's zero `Value{}` (zero `ValueType` is `StringType`). -/
def emptyValue : Value := ⟨.StringType, [], [], [], none, [], []⟩

/-- The per-shard typed store: the data map and the TTL map of absolute
deadlines.  (`ttlKeys`, used only by the random sampler, is omitted.) -/
structure Store where
  data : List (String × Value)
  ttl : List (String × Int)
deriving DecidableEq, Repr

def NewStore : Store := ⟨[], []⟩

/-- Model of `Store.expired`: if the key carries a deadline strictly in the past,
delete the key and its TTL entry and report `true`.  `now` is the value of
`time.Now()` during the call. -/
def Store.expired (s : Store) (now : Int) (key : String) : Bool × Store :=
  match mlookup s.ttl key with
  | none => (false, s)
  | some exp =>
    if now > exp then (true, ⟨merase s.data key, merase s.ttl key⟩)
    else (false, s)

/-- Model of `Store.Set`: replace any value with a STRING value; positive `expire`
sets deadline `now + expire`, otherwise the TTL entry is cleared. -/
def Store.Set (s : Store) (now : Int) (key : String) (val : List Nat) (expire : Int) :
    Store :=
  let s := (s.expired now key).2
  let s : Store := { s with data := minsert s.data key { emptyValue with data := val } }
  if expire > 0 then { s with ttl := minsert s.ttl key (now + expire) }
  else { s with ttl := merase s.ttl key }

/-- Model of `Store.Get` (typed variant): lazy expiration, then return `Data`. -/
def Store.Get (s : Store) (now : Int) (key : String) : Option (List Nat) × Store :=
  match s.expired now key with
  | (true, s') => (none, s')
  | (false, s') =>
    match mlookup s'.data key with
    | none => (none, s')
    | some v => (some v.data, s')

/-- Model of `Store.Delete`: remove the key and its TTL; report prior existence. -/
def Store.Delete (s : Store) (key : String) : Bool × Store :=
  match mlookup s.data key with
  | some _ => (true, ⟨merase s.data key, merase s.ttl key⟩)
  | none => (false, s)

/-- Model of `Store.TTL`: -1 for a key without deadline, -2 for a missing key or a
deadline not in the future, else whole seconds remaining
(`int64(time.Until(exp).Seconds())`, i.e. the nanosecond difference divided
by 10^9 rounded toward zero). -/
def Store.TTL (s : Store) (now : Int) (key : String) : Int :=
  match mlookup s.ttl key with
  | none => if (mlookup s.data key).isSome then -1 else -2
  | some exp =>
    if exp - now ≤ 0 then -2 else Int.ofNat ((exp - now).toNat / 1000000000)

/-- The member-adding loop of `Store.SAdd`. -/
def Value.addSetMembers (v : Value) (members : List String) : Nat × Value :=
  members.foldl
    (fun acc m =>
      if m ∈ acc.2.set then acc
      else (acc.1 + 1, { acc.2 with set := acc.2.set ++ [m] }))
    (0, v)

/-- Model of `Store.SAdd`: create a SET value if the key is absent; on another tag
return 0 without touching anything (the source's silent WRONGTYPE path). -/
def Store.SAdd (s : Store) (now : Int) (key : String) (members : List String) :
    Int × Store :=
  let s := (s.expired now key).2
  let vs : Value × Store :=
    match mlookup s.data key with
    | none =>
      let v : Value := { emptyValue with typ := .SetType }
      (v, { s with data := minsert s.data key v })
    | some v => (v, s)
  let v := vs.1
  let s := vs.2
  if v.typ ≠ .SetType then (0, s)
  else
    let av := v.addSetMembers members
    ((av.1 : Int), { s with data := minsert s.data key av.2 })

/-- Model of `Store.HSet`: 1 if the field is new, 0 if it existed; 0 and no change on
a wrong-tag key. -/
def Store.HSet (s : Store) (now : Int) (key field value : String) : Int × Store :=
  let s := (s.expired now key).2
  let vs : Value × Store :=
    match mlookup s.data key with
    | none =>
      let v : Value := { emptyValue with typ := .HashType }
      (v, { s with data := minsert s.data key v })
    | some v => (v, s)
  let v := vs.1
  let s := vs.2
  if v.typ ≠ .HashType then (0, s)
  else
    let existed := (mlookup v.hash field).isSome
    let v' : Value := { v with hash := minsert v.hash field value }
    let s : Store := { s with data := minsert s.data key v' }
    (if existed then 0 else 1, s)

/-- Model of `Store.HGet`. -/
def Store.HGet (s : Store) (now : Int) (key field : String) : Option String × Store :=
  match s.expired now key with
  | (true, s') => (none, s')
  | (false, s') =>
    match mlookup s'.data key with
    | none => (none, s')
    | some v => if v.typ ≠ .HashType then (none, s') else (mlookup v.hash field, s')

/-- Model of `Store.HDel`: delete fields; when the hash becomes empty remove the data
entry (the TTL entry is left in place). -/
def Store.HDel (s : Store) (now : Int) (key : String) (fields : List String) :
    Int × Store :=
  match s.expired now key with
  | (true, s') => (0, s')
  | (false, s') =>
    match mlookup s'.data key with
    | none => (0, s')
    | some v =>
      if v.typ ≠ .HashType then (0, s')
      else
        let dh := fields.foldl
          (fun acc f =>
            if (mlookup acc.2 f).isSome then (acc.1 + 1, merase acc.2 f) else acc)
          (0, v.hash)
        if dh.2.length = 0 then ((dh.1 : Int), { s' with data := merase s'.data key })
        else ((dh.1 : Int), { s' with data := minsert s'.data key { v with hash := dh.2 } })

/-- Model of `Store.SPop`: remove up to `count` random members; `order` stands for the
result of `rand.Shuffle` on the flattened member slice (theorems quantify over
every permutation of the members).  When the set empties, the data entry is
removed but the TTL entry is not. -/
def Store.SPop (s : Store) (now : Int) (key : String) (count : Int)
    (order : List String) : List String × Store :=
  match s.expired now key with
  | (true, s') => ([], s')
  | (false, s') =>
    match mlookup s'.data key with
    | none => ([], s')
    | some v =>
      if v.typ ≠ .SetType then ([], s')
      else
        let n := v.set.length
        if n = 0 then ([], s')
        else
          let c := if count ≤ 0 then 1 else min count.toNat n
          let selected := order.take c
          let newSet := v.set.filter (fun m => ¬ m ∈ selected)
          if newSet.length = 0 then (selected, { s' with data := merase s'.data key })
          else (selected, { s' with data := minsert s'.data key { v with set := newSet } })

/-- Model of `Store.LPush`: prepend the values (the source's descending loop of
single-element prepends builds `values ++ old`); -1 and no change on a
wrong-tag key.  (`LPush` performs no expiration check in the source.) -/
def Store.LPush (s : Store) (key : String) (values : List String) : Int × Store :=
  let vs : Value × Store :=
    match mlookup s.data key with
    | none =>
      let v : Value := { emptyValue with typ := .ListType }
      (v, { s with data := minsert s.data key v })
    | some v => (v, s)
  let v := vs.1
  let s := vs.2
  if v.typ ≠ .ListType then (-1, s)
  else
    let v' : Value := { v with list := values ++ v.list }
    ((v'.list.length : Int), { s with data := minsert s.data key v' })

/-! ## ZSET ordering (`Store.ZRange`, `Store.ZRank`) -/

/-- The `sort.Slice` comparator used by `ZRange`/`ZRank`: score ascending,
ties broken by member lexicographic order.  (Lean's `String` order is
lexicographic on code points, agreeing with Go's byte order on ASCII.) -/
def zltB (a b : String × Rat) : Bool :=
  if a.2 = b.2 then a.1 < b.1 else decide (a.2 < b.2)

/-- The non-strict order induced by the comparator (`zle a b ↔ ¬ zltB b a`):
the order in which `sort.Slice` leaves the pair slice. -/
def zle (a b : String × Rat) : Prop := a.2 < b.2 ∨ (a.2 = b.2 ∧ a.1 ≤ b.1)

instance : DecidableRel zle := fun a b => by
  unfold zle; infer_instance

instance : IsTotal (String × Rat) zle := by
  constructor
  intro a b
  rcases lt_trichotomy a.2 b.2 with h | h | h
  · exact Or.inl (Or.inl h)
  · rcases le_total a.1 b.1 with h' | h'
    · exact Or.inl (Or.inr ⟨h, h'⟩)
    · exact Or.inr (Or.inr ⟨h.symm, h'⟩)
  · exact Or.inr (Or.inl h)

instance : IsTrans (String × Rat) zle := by
  constructor
  intro a b c hab hbc
  rcases hab with h1 | ⟨h1, h1'⟩
  · rcases hbc with h2 | ⟨h2, _⟩
    · exact Or.inl (h1.trans h2)
    · exact Or.inl (h2 ▸ h1)
  · rcases hbc with h2 | ⟨h2, h2'⟩
    · exact Or.inl (h1 ▸ h2)
    · exact Or.inr ⟨h1.trans h2, h1'.trans h2'⟩

/-- The pair slice after `sort.Slice(pairs, less)`: with pairwise-distinct
members the comparator is a strict total order, so the sorted permutation is
unique and insertion sort computes exactly it. -/
def sortZ (l : List (String × Rat)) : List (String × Rat) := l.insertionSort zle

/-- Model of `fmt.Sprintf("%f", score)` on the model's rational scores: sign, integer
part, and six fractional digits, rounding to nearest. -/
def fmtScore (q : Rat) : String :=
  let sign := if q < 0 then "-" else ""
  let n : Nat := ((|q| * 1000000 + 1/2).floor).toNat
  let ip := n / 1000000
  let fp := n % 1000000
  let fpStr := toString fp
  let pad := String.mk (List.replicate (6 - fpStr.length) '0')
  sign ++ toString ip ++ "." ++ pad ++ fpStr

/-- Model of `Store.ZRange`: sort by (score asc, member asc), apply the negative-index
and clamping arithmetic, and emit members (with formatted scores when
`withScores`). -/
def Store.ZRange (s : Store) (now : Int) (key : String) (start stop : Int)
    (withScores : Bool) : List String × Store :=
  match s.expired now key with
  | (true, s') => ([], s')
  | (false, s') =>
    match mlookup s'.data key with
    | none => ([], s')
    | some v =>
      if v.typ ≠ .ZSetType then ([], s')
      else
        let pairs := sortZ v.zset
        let n : Int := pairs.length
        if pairs.length = 0 then ([], s')
        else
          let start := if start < 0 then n + start else start
          let stop := if stop < 0 then n + stop else stop
          let start := if start < 0 then 0 else start
          let stop := if stop ≥ n then n - 1 else stop
          if start > stop ∨ start ≥ n then ([], s')
          else
            let window := (pairs.drop start.toNat).take (stop - start + 1).toNat
            (window.flatMap (fun p => if withScores then [p.1, fmtScore p.2] else [p.1]), s')

/-- Model of `Store.ZRank`: rank of the member in the same (score asc, member asc)
order, scanning the sorted slice. -/
def Store.ZRank (s : Store) (now : Int) (key member : String) :
    (Int × Bool) × Store :=
  match s.expired now key with
  | (true, s') => ((0, false), s')
  | (false, s') =>
    match mlookup s'.data key with
    | none => ((0, false), s')
    | some v =>
      if v.typ ≠ .ZSetType then ((0, false), s')
      else
        let pairs := sortZ v.zset
        match pairs.findIdx? (fun p => p.1 = member) with
        | some r => (((r : Int), true), s')
        | none => ((0, false), s')

/-! ## Binary snapshot and restore (`store_serialize.go`, `shard.go`) -/

/-- The gob-serialized form of a `Value`, modelled by its decoded content
(gob encode/decode of this plain data struct is the identity on its fields).
The struct carries `Type`, `Data`, `Set`, `Hash` and the CMS blob only — it
has no `List` or `ZSet` field.  `cms = none` models a nil/absent CMS blob
(`len(sv.CMS) == 0`); the CMS gob roundtrip preserves depth, width and
table. -/
structure SerializedValue where
  typ : ValueType
  data : List Nat
  set : List String
  hash : List (String × String)
  cms : Option CountMinSketch
deriving DecidableEq, Repr

/-- Model of `Store.serializeValue`: project the value onto the `SerializedValue`
struct (the nil return on a CMS gob-encoding failure cannot occur for the
plain data struct and is not modelled). -/
def serializeValue (v : Value) : SerializedValue :=
  { typ := v.typ, data := v.data, set := v.set, hash := v.hash, cms := v.cms }

/-- A `KeyDump`: key, tag, serialized value bytes (modelled decoded), and the
absolute TTL deadline (`0` models the zero `time.Time`, i.e. no TTL). -/
structure KeyDump where
  key : String
  valueType : ValueType
  value : SerializedValue
  ttl : Int
deriving DecidableEq, Repr

/-- Model of `Store.restoreFromDump`: decode the dump, reject a STRING with empty
payload, and otherwise install the value under `kd.key`, setting the TTL map
entry when the dump carries a nonzero deadline.  The nil-map initialization
and deep copies of the source are content-level no-ops. -/
def Store.restoreFromDump (s : Store) (kd : KeyDump) : Except String Store :=
  let sv := kd.value
  let v : Value :=
    { typ := sv.typ, data := sv.data, set := sv.set, hash := sv.hash,
      cms := sv.cms, list := [], zset := [] }
  if v.typ = .StringType ∧ v.data.length = 0 then
    Except.error "empty data for string value"
  else
    Except.ok
      ⟨minsert s.data kd.key v,
       if kd.ttl ≠ 0 then minsert s.ttl kd.key kd.ttl else s.ttl⟩

/-- Model of `Store.getExpirationTime`: the TTL deadline, or the zero time. -/
def Store.getExpirationTime (s : Store) (key : String) : Int :=
  (mlookup s.ttl key).getD 0

/-- Model of `Store.getRaw`: raw data-map lookup, no expiration check. -/
def Store.getRaw (s : Store) (key : String) : Option Value :=
  mlookup s.data key

/-- The shard's `DUMPKEY` handler: a `KeyDump` of the resident value and its
absolute deadline, or nothing when the key is absent. -/
def dumpKey (s : Store) (key : String) : Option KeyDump :=
  match s.getRaw key with
  | none => none
  | some v =>
    some { key := key, valueType := v.typ, value := serializeValue v,
           ttl := s.getExpirationTime key }

/-! ## Per-key migration (`BackgroundMigrateTo`, `unnamed/part_002` /
`migrator.go`)

For one key the migrator issues `DUMPKEY` to the source shard; on a hit it
issues `MIGRATE_RESTORE` to the destination shard; only when the restore
reply is not an error does it issue `MIGRATE_DELETE` to the source.  The
trace below records each primitive issued together with the shard-store
states after it completes. -/

inductive MigOp where
  | dump | restore | migDelete
deriving DecidableEq, Repr

/-- The stores of the source and destination shards. -/
structure MigState where
  src : Store
  dest : Store
deriving DecidableEq, Repr

/-- The per-key body of `BackgroundMigrateTo`: the sequence of migration
primitives issued for key `k` and the state after each. -/
def migrateKey (st : MigState) (k : String) : List (MigOp × MigState) :=
  match dumpKey st.src k with
  | none => [(MigOp.dump, st)]
  | some kd =>
    match st.dest.restoreFromDump kd with
    | .error _ => [(MigOp.dump, st), (MigOp.restore, st)]
    | .ok dest' =>
      let st1 : MigState := { st with dest := dest' }
      let st2 : MigState := { st1 with src := (st1.src.Delete k).2 }
      [(MigOp.dump, st), (MigOp.restore, st1), (MigOp.migDelete, st2)]

/-! ## Consistent-hash ring (`consistent_hash.go`) -/

/-- Model of `HashRing`: sorted virtual-node tokens, token→node map, live node set
(the node set is a Go `map[string]struct{}`, modelled as a duplicate-free
list). -/
structure HashRing where
  replicas : Nat
  keys : List Nat
  vnodeMap : List (Nat × String)
  nodes : List String
deriving DecidableEq, Repr

def NewHashRing (replicas : Nat) : HashRing := ⟨replicas, [], [], []⟩

/-- The virtual-node key `nodeID + "#" + strconv.Itoa(i)`. -/
def vnodeKey (nodeID : String) (i : Nat) : String := nodeID ++ "#" ++ toString i

/-- The `replicas` virtual-node tokens of a node. -/
def vnodeTokens (replicas : Nat) (nodeID : String) : List Nat :=
  (List.range replicas).map (fun i => hashStr (vnodeKey nodeID i))

/-- The `sort.Slice` ascending re-sort of the token list. -/
def sortTokens (l : List Nat) : List Nat := l.insertionSort (· ≤ ·)

/-- Model of `HashRing.AddNode`: no-op on a live id; else append the id's vnode tokens
to the key list (re-sorting) and point each of them at the id in the vnode
map. -/
def HashRing.AddNode (hr : HashRing) (nodeID : String) : HashRing :=
  if nodeID ∈ hr.nodes then hr
  else
    let tokens := vnodeTokens hr.replicas nodeID
    { hr with
      nodes := hr.nodes ++ [nodeID]
      keys := sortTokens (hr.keys ++ tokens)
      vnodeMap := tokens.foldl (fun m hv => minsert m hv nodeID) hr.vnodeMap }

/-- Model of `HashRing.RemoveNode`: no-op on an absent id; else walk the token list,
dropping each token whose *current* vnode-map binding (zero value `""` when
missing) is the id, deleting that binding as it goes. -/
def HashRing.RemoveNode (hr : HashRing) (nodeID : String) : HashRing :=
  if nodeID ∈ hr.nodes then
    let km := hr.keys.foldl
      (fun (acc : List Nat × List (Nat × String)) kv =>
        if mlookupD acc.2 kv "" = nodeID then (acc.1, merase acc.2 kv)
        else (acc.1 ++ [kv], acc.2))
      ([], hr.vnodeMap)
    { hr with
      nodes := hr.nodes.filter (fun n => n ≠ nodeID)
      keys := km.1
      vnodeMap := km.2 }
  else hr

/-- Go's `sort.Search` binary-search loop: the invariant driving it is that
`f` is false before the answer and true from it on. -/
def sortSearchAux (f : Nat → Bool) (i j : Nat) : Nat :=
  if h : i < j then
    let m := (i + j) / 2
    if f m then sortSearchAux f i m else sortSearchAux f (m + 1) j
  else i
termination_by j - i
decreasing_by
  all_goals omega

def sortSearch (n : Nat) (f : Nat → Bool) : Nat := sortSearchAux f 0 n

/-- Model of `HashRing.GetNode`: none on an empty token list; else binary-search the
first token ≥ the key hash, wrap past the end to index 0, and return the
vnode-map binding of that token (zero value `""` when missing). -/
def HashRing.GetNode (hr : HashRing) (key : String) : Option String :=
  if hr.keys.length = 0 then none
  else
    let hv := hashStr key
    let idx := sortSearch hr.keys.length (fun i => decide (hr.keys.getD i 0 ≥ hv))
    let idx := if idx = hr.keys.length then 0 else idx
    some (mlookupD hr.vnodeMap (hr.keys.getD idx 0) "")

/-- A ring mutation. -/
inductive RingOp where
  | add (id : String)
  | remove (id : String)
deriving DecidableEq, Repr

def applyOp (hr : HashRing) : RingOp → HashRing
  | .add id => hr.AddNode id
  | .remove id => hr.RemoveNode id

/-- Apply a sequence of ring mutations. -/
def applyOps (hr : HashRing) (ops : List RingOp) : HashRing := ops.foldl applyOp hr

def RingOp.nodeId : RingOp → String
  | .add i => i
  | .remove i => i

/-- The node ids mentioned by a mutation sequence. -/
def opIds (ops : List RingOp) : List String := ops.map RingOp.nodeId

/-! ## Router (`sharded_store.go`) -/

/-- The `SET`-like command test of `getShardForKey`'s empty-ring fallback. -/
def writeCreating (cmd : String) : Bool :=
  cmd = "SET" || cmd = "HSET" || cmd = "SADD" || cmd = "ZADD" ||
    cmd = "LPUSH" || cmd = "RPUSH"

/-- Model of `SharedStore.getShardForKey` at the level of node ids.  `nodeOrder` is
the key set of the Go `nodeShards` map in its iteration order — Go leaves
that order unspecified, so it is a parameter of the embedding. -/
def getShardForKey (hr : HashRing) (nodeOrder : List String) (key cmd : String) :
    Option String :=
  match hr.GetNode key with
  | none =>
    if writeCreating cmd then
      if nodeOrder.length > 0 then
        let h := hashStr key
        let nodeID := nodeOrder.getD (h % nodeOrder.length) ""
        if nodeID ∈ nodeOrder then some nodeID else none
      else none
    else none
  | some nodeID => if nodeID ∈ nodeOrder then some nodeID else none

/-- The routing decision of `SharedStore.Execute`: the chosen shard, or the
"no shard available" error when `getShardForKey` finds none. -/
def ExecuteRoute (hr : HashRing) (nodeOrder : List String) (cmd key : String) :
    Except String String :=
  match getShardForKey hr nodeOrder key cmd with
  | some sh => Except.ok sh
  | none => Except.error ("no shard available for key " ++ key)

/-! ## Shard dispatch slice (`store/shard.go`) -/

/-- The dynamically-typed reply slot (`chan interface{}`), restricted to the
payloads the modelled handlers write. -/
inductive Reply where
  | rint (n : Int)
  | rstr (s : String)
  | rbool (b : Bool)
  | rnil
  | rerr (msg : String)
deriving DecidableEq, Repr

def Reply.isErr : Reply → Bool
  | .rerr _ => true
  | _ => false

structure ShardRequest where
  command : String
  key : String
  args : List String
deriving DecidableEq, Repr

/-- The dispatch arms of `Shard.handle` for the wrong-type-sensitive mutators
(SADD/HSET/LPUSH): the store's integer result is written to the reply slot
directly — no arm converts a wrong-type sentinel into an error reply. -/
def handleMutator (s : Store) (now : Int) (req : ShardRequest) : Reply × Store :=
  match req.command with
  | "SADD" =>
    if req.args.length < 1 then (.rint 0, s)
    else
      let r := s.SAdd now req.key req.args
      (.rint r.1, r.2)
  | "HSET" =>
    if req.args.length < 2 then (.rint 0, s)
    else
      let r := s.HSet now req.key (req.args.getD 0 "") (req.args.getD 1 "")
      (.rint r.1, r.2)
  | "LPUSH" =>
    if req.args.length < 1 then (.rint (-1), s)
    else
      let r := s.LPush req.key req.args
      (.rint r.1, r.2)
  | _ => (.rerr ("unknown command: " ++ req.command), s)

/-- The spec's description of `GetNode`, for refinement comparison: with no
tokens, none; else the vnode-map binding of the first token ≥ the key's
FNV-1a hash, wrapping to the token at index 0 when no token qualifies. -/
def GetNodeSpec (hr : HashRing) (key : String) : Option String :=
  if hr.keys = [] then none
  else
    let hv := hashStr key
    let idx :=
      match hr.keys.findIdx? (fun t => decide (hv ≤ t)) with
      | some i => i
      | none => 0
    some (mlookupD hr.vnodeMap (hr.keys.getD idx 0) "")

/-- Pairwise-distinct virtual-node hashes over a universe of node ids: the
collision-freedom assumption under which the ring bookkeeping is exact. -/
def VnodeCollisionFree (replicas : Nat) (ids : List String) : Prop :=
  ∀ id₁ ∈ ids, ∀ id₂ ∈ ids, ∀ i₁ < replicas, ∀ i₂ < replicas,
    hashStr (vnodeKey id₁ i₁) = hashStr (vnodeKey id₂ i₂) → id₁ = id₂ ∧ i₁ = i₂

/-- Well-formedness of a ring state: duplicate-free live set, the token list
is (as a multiset) the live nodes' virtual-node tokens, and the vnode map
binds exactly those tokens to their nodes. -/
structure RingWF (hr : HashRing) : Prop where
  nodes_nodup : hr.nodes.Nodup
  keys_perm : hr.keys.Perm (hr.nodes.flatMap (vnodeTokens hr.replicas))
  map_sound : ∀ t id, mlookup hr.vnodeMap t = some id →
    id ∈ hr.nodes ∧ t ∈ vnodeTokens hr.replicas id
  map_complete : ∀ id ∈ hr.nodes, ∀ t ∈ vnodeTokens hr.replicas id,
    mlookup hr.vnodeMap t = some id

/-! ## Helper lemmas -/

theorem mlookup_minsert {α β : Type} [DecidableEq α] (m : List (α × β)) (k : α) (v : β) :
    mlookup (minsert m k v) k = some v := by
  induction m with
  | nil => simp [minsert, mlookup]
  | cons p rest ih =>
    by_cases h : p.1 = k
    · simp [minsert, h, mlookup]
    · simp [minsert, h, mlookup, ih]

theorem mlookup_minsert_ne {α β : Type} [DecidableEq α] (m : List (α × β)) (k k' : α)
    (v : β) (hne : k' ≠ k) : mlookup (minsert m k v) k' = mlookup m k' := by
  induction m with
  | nil => simp [minsert, mlookup, Ne.symm hne]
  | cons p rest ih =>
    by_cases h : p.1 = k
    · have h' : p.1 ≠ k' := fun hk => hne ((hk.symm.trans h))
      simp [minsert, h, mlookup, h', Ne.symm hne]
    · by_cases h' : p.1 = k'
      · simp [minsert, h, mlookup, h', hne]
      · simp [minsert, h, mlookup, h', ih]

theorem mlookup_merase {α β : Type} [DecidableEq α] (m : List (α × β)) (k : α) :
    mlookup (merase m k) k = none := by
  induction m with
  | nil => simp [merase, mlookup]
  | cons p rest ih =>
    by_cases h : p.1 = k
    · simpa [merase, h] using ih
    · simp [merase, h, mlookup, ih]

theorem mlookup_merase_ne {α β : Type} [DecidableEq α] (m : List (α × β)) (k k' : α)
    (hne : k' ≠ k) : mlookup (merase m k) k' = mlookup m k' := by
  induction m with
  | nil => simp [merase]
  | cons p rest ih =>
    by_cases h : p.1 = k
    · have h' : p.1 ≠ k' := fun hk => hne ((hk.symm.trans h))
      simp [merase, h, mlookup, h', ih, Ne.symm hne]
    · by_cases h' : p.1 = k'
      · simp [merase, h, mlookup, h', hne]
      · simp [merase, h, mlookup, h', ih]

theorem Store.expired_of_future {s : Store} {now exp : Int} {key : String}
    (ht : mlookup s.ttl key = some exp) (hle : now ≤ exp) :
    s.expired now key = (false, s) := by
  simp only [Store.expired, ht]
  rw [if_neg (not_lt.mpr hle)]

theorem Store.expired_false_eq {s : Store} {now : Int} {key : String}
    (h : (s.expired now key).1 = false) : (s.expired now key).2 = s := by
  unfold Store.expired at h ⊢
  cases hm : mlookup s.ttl key with
  | none => simp
  | some exp =>
    simp only [hm] at h ⊢
    by_cases hlt : now > exp
    · simp [hlt] at h
    · simp [hlt]

/-! ## Claim C1 -/

/-- C1 (code bug): the serialize/restore roundtrip is *not* the identity on
every value tag.  `SerializedValue` carries no `List` or `ZSet` field, so for
a LIST value holding `["a"]` the `KeyDump` produced by `DUMPKEY` decodes to a
value with an empty list: the payload is lost on migration, contradicting
the claimed `decode(encode(V)) == V`.  (The TTL deadline itself is carried
and installed.) -/
theorem c1_roundtrip_loses_list_payload :
    dumpKey ⟨[("k", { emptyValue with typ := .ListType, list := ["a"] })],
             [("k", 5000000000)]⟩ "k" =
      some { key := "k", valueType := .ListType,
             value := serializeValue
               { emptyValue with typ := .ListType, list := ["a"] },
             ttl := 5000000000 } ∧
    NewStore.restoreFromDump
        { key := "k", valueType := .ListType,
          value := serializeValue
            { emptyValue with typ := .ListType, list := ["a"] },
          ttl := 5000000000 } =
      Except.ok ⟨[("k", { emptyValue with typ := .ListType })],
                 [("k", 5000000000)]⟩ ∧
    ({ emptyValue with typ := .ListType } : Value) ≠
      { emptyValue with typ := .ListType, list := ["a"] } := by
  refine ⟨rfl, rfl, by decide⟩

/-! ## Claim C10 -/

/-- C10 (confirmed): restoring a dump whose decoded value is a STRING with an
empty payload fails before any store mutation, so per-key migration of such a
key stops after the failed restore: every state of the migration trace keeps
the original source and destination stores, the key is never installed on the
destination, and `MIGRATE_DELETE` is never issued. -/
theorem c10_restore_rejects_empty_string (src dest : Store) (k : String)
    (v : Value) (hv : mlookup src.data k = some v) (ht : v.typ = .StringType)
    (hd : v.data = []) :
    dest.restoreFromDump
        { key := k, valueType := v.typ, value := serializeValue v,
          ttl := src.getExpirationTime k } =
      Except.error "empty data for string value" ∧
    migrateKey ⟨src, dest⟩ k =
      [(MigOp.dump, ⟨src, dest⟩), (MigOp.restore, ⟨src, dest⟩)] := by
  have herr : dest.restoreFromDump
      { key := k, valueType := v.typ, value := serializeValue v,
        ttl := src.getExpirationTime k } =
      Except.error "empty data for string value" := by
    simp [Store.restoreFromDump, serializeValue, ht, hd]
  refine ⟨herr, ?_⟩
  simp only [migrateKey, dumpKey, Store.getRaw, hv, herr]

/-- Concrete instance of `c10_restore_rejects_empty_string`: Go's zero
`Value{}` is a STRING with empty payload. -/
theorem c10_restore_rejects_empty_string_witness :
    Store.restoreFromDump NewStore
        { key := "k", valueType := ValueType.StringType,
          value := serializeValue emptyValue,
          ttl := Store.getExpirationTime ⟨[("k", emptyValue)], []⟩ "k" } =
      Except.error "empty data for string value" ∧
    migrateKey ⟨⟨[("k", emptyValue)], []⟩, NewStore⟩ "k" =
      [(MigOp.dump, ⟨⟨[("k", emptyValue)], []⟩, NewStore⟩),
       (MigOp.restore, ⟨⟨[("k", emptyValue)], []⟩, NewStore⟩)] :=
  c10_restore_rejects_empty_string ⟨[("k", emptyValue)], []⟩ NewStore "k"
    emptyValue rfl rfl rfl

/-! ## Claim C5 -/

/-- C5 counterexample: SADD on a key holding a STRING does not fail with a
type error — the shard handler replies with the plain integer 0 (the same
reply as a successful no-op add) and no error reply is produced. -/
theorem c5_sadd_wrongtype_is_not_an_error :
    handleMutator ⟨[("k", { emptyValue with data := [118] })], []⟩ 0
        ⟨"SADD", "k", ["m"]⟩ =
      (Reply.rint 0, ⟨[("k", { emptyValue with data := [118] })], []⟩) ∧
    Reply.isErr
        (handleMutator ⟨[("k", { emptyValue with data := [118] })], []⟩ 0
          ⟨"SADD", "k", ["m"]⟩).1 = false := by
  refine ⟨rfl, rfl⟩

/-- C5 (amended): a mutating command of a different tag returns the source's
wrong-type sentinel (0 for SAdd and HSet, -1 for LPush) and leaves the whole
store — the key's value, its tag and its TTL entry — unchanged. -/
theorem c5_wrongtype_mutators_unchanged (s : Store) (now : Int) (key : String)
    (v : Value) (hv : mlookup s.data key = some v)
    (hne : (s.expired now key).1 = false)
    (members : List String) (f w : String) (vs : List String) :
    (v.typ ≠ .SetType → s.SAdd now key members = (0, s)) ∧
    (v.typ ≠ .HashType → s.HSet now key f w = (0, s)) ∧
    (v.typ ≠ .ListType → s.LPush key vs = (-1, s)) := by
  have h2 := Store.expired_false_eq hne
  refine ⟨fun ht => ?_, fun ht => ?_, fun ht => ?_⟩
  · simp [Store.SAdd, h2, hv, ht]
  · simp [Store.HSet, h2, hv, ht]
  · simp [Store.LPush, hv, ht]

/-- Concrete instance of `c5_wrongtype_mutators_unchanged` on a STRING key. -/
theorem c5_wrongtype_mutators_unchanged_witness :
    Store.SAdd ⟨[("k", emptyValue)], []⟩ 0 "k" ["m"] =
      (0, ⟨[("k", emptyValue)], []⟩) ∧
    Store.HSet ⟨[("k", emptyValue)], []⟩ 0 "k" "f" "w" =
      (0, ⟨[("k", emptyValue)], []⟩) ∧
    Store.LPush ⟨[("k", emptyValue)], []⟩ "k" ["x"] =
      (-1, ⟨[("k", emptyValue)], []⟩) := by
  have h := c5_wrongtype_mutators_unchanged ⟨[("k", emptyValue)], []⟩ 0 "k"
    emptyValue rfl rfl ["m"] "f" "w" ["x"]
  exact ⟨h.1 (by decide), h.2.1 (by decide), h.2.2 (by decide)⟩

/-! ## Claim C7 -/

/-- C7 counterexample: a store can hold a TTL entry with a future deadline
for a key with no data entry (see C9: `HDel` of the last field leaves the TTL
entry behind).  Such a key is observationally absent — `Get` returns nothing
— yet `TTL` returns the positive remaining seconds, not -2. -/
theorem c7_ttl_positive_on_orphaned_entry :
    Store.TTL ⟨[], [("k", 2000000000)]⟩ 0 "k" = 2 ∧
    mlookup (Store.data ⟨[], [("k", 2000000000)]⟩) "k" = none ∧
    (Store.Get ⟨[], [("k", 2000000000)]⟩ 0 "k").1 = none := by
  refine ⟨by decide, rfl, rfl⟩

/-- C7 (amended): `TTL` is driven by the TTL map first.  It returns -2 when
the key has neither TTL entry nor data entry, or when its TTL deadline is not
in the future; -1 when a data entry exists without TTL entry; and the whole
remaining seconds (nanoseconds divided by 10^9) whenever a TTL entry with a
future deadline exists — regardless of whether a data entry exists.  When
the deadline has passed, `Get` indeed reports the key absent. -/
theorem c7_ttl_cases (s : Store) (now : Int) (key : String) :
    (mlookup s.ttl key = none → mlookup s.data key = none →
      s.TTL now key = -2) ∧
    (mlookup s.ttl key = none → (mlookup s.data key).isSome = true →
      s.TTL now key = -1) ∧
    (∀ exp, mlookup s.ttl key = some exp → exp ≤ now → s.TTL now key = -2) ∧
    (∀ exp, mlookup s.ttl key = some exp → now < exp →
      s.TTL now key = Int.ofNat ((exp - now).toNat / 1000000000)) ∧
    (∀ exp, mlookup s.ttl key = some exp → exp < now →
      (s.Get now key).1 = none) := by
  refine ⟨?_, ?_, ?_, ?_, ?_⟩
  · intro h1 h2; simp [Store.TTL, h1, h2]
  · intro h1 h2; simp [Store.TTL, h1, h2]
  · intro exp h1 h2
    simp only [Store.TTL, h1]
    rw [if_pos (sub_nonpos.mpr h2)]
  · intro exp h1 h2
    simp only [Store.TTL, h1]
    rw [if_neg (fun hc => absurd (sub_nonpos.mp hc) (not_le.mpr h2))]
  · intro exp h1 h2
    simp [Store.Get, Store.expired, h1, h2]

/-- Concrete instances of `c7_ttl_cases`: a key with 3 s remaining and a key
without TTL entry. -/
theorem c7_ttl_cases_witness :
    Store.TTL ⟨[("k", emptyValue)], [("k", 3000000000)]⟩ 0 "k" = 3 ∧
    Store.TTL ⟨[("k", emptyValue)], []⟩ 0 "k" = -1 := by
  have h := c7_ttl_cases ⟨[("k", emptyValue)], [("k", 3000000000)]⟩ 0 "k"
  have h2 := c7_ttl_cases ⟨[("k", emptyValue)], []⟩ 0 "k"
  constructor
  · have h3 := h.2.2.2.1 3000000000 rfl (by decide)
    simpa using h3
  · exact h2.2.1 rfl (by decide)

/-! ## Claim C9 -/

/-- C9 (confirmed): deleting the only hash field with `HDel` (respectively
popping all remaining members with `SPop`) removes the key's data entry but
leaves its TTL entry in the TTL map, so an immediately subsequent `TTL`
returns positive remaining seconds rather than -2 even though `HGet`/`Get`
(respectively the data map) report the key absent. -/
theorem c9_hdel_spop_leave_ttl
    (s : Store) (now exp : Int) (key field val : String)
    (hv : mlookup s.data key =
        some { emptyValue with typ := .HashType, hash := [(field, val)] })
    (ht : mlookup s.ttl key = some exp) (hfut : now + 1000000000 ≤ exp)
    (s2 : Store) (exp2 : Int) (key2 : String) (mems order : List String)
    (count : Int)
    (hv2 : mlookup s2.data key2 =
        some { emptyValue with typ := .SetType, set := mems })
    (ht2 : mlookup s2.ttl key2 = some exp2) (hfut2 : now + 1000000000 ≤ exp2)
    (hmems : mems ≠ []) (hperm : order.Perm mems)
    (hcnt : (mems.length : Int) ≤ count) :
    ((s.HDel now key [field]).1 = 1 ∧
     mlookup (s.HDel now key [field]).2.data key = none ∧
     mlookup (s.HDel now key [field]).2.ttl key = some exp ∧
     0 < (s.HDel now key [field]).2.TTL now key ∧
     ((s.HDel now key [field]).2.HGet now key field).1 = none ∧
     ((s.HDel now key [field]).2.Get now key).1 = none) ∧
    (mlookup (s2.SPop now key2 count order).2.data key2 = none ∧
     mlookup (s2.SPop now key2 count order).2.ttl key2 = some exp2 ∧
     0 < (s2.SPop now key2 count order).2.TTL now key2) := by
  have hexp := @Store.expired_of_future s now exp key ht (by omega)
  have hexp2 := @Store.expired_of_future s2 now exp2 key2 ht2 (by omega)
  have hhdel : s.HDel now key [field] = (1, ⟨merase s.data key, s.ttl⟩) := by
    simp [Store.HDel, hexp, hv, mlookup, merase]
  have hexp' : (⟨merase s.data key, s.ttl⟩ : Store).expired now key =
      (false, ⟨merase s.data key, s.ttl⟩) :=
    @Store.expired_of_future ⟨merase s.data key, s.ttl⟩ now exp key ht (by omega)
  have httl : (0 : Int) < Store.TTL ⟨merase s.data key, s.ttl⟩ now key := by
    simp only [Store.TTL, ht]
    rw [if_neg (show ¬ exp - now ≤ 0 by omega)]
    exact Int.ofNat_pos.mpr ((Nat.le_div_iff_mul_le (by norm_num)).mpr (by omega))
  have hmemlen : 1 ≤ mems.length := by
    cases mems with
    | nil => exact absurd rfl hmems
    | cons a l => simp
  have horder : order.length = mems.length := hperm.length_eq
  have hfilter : mems.filter (fun m => !(m ∈ order : Bool)) = [] := by
    rw [List.filter_eq_nil_iff]
    intro m hm
    simp [hperm.mem_iff.mpr hm]
  have hspop : s2.SPop now key2 count order =
      (order, ⟨merase s2.data key2, s2.ttl⟩) := by
    simp only [Store.SPop, hexp2, hv2]
    rw [if_neg (by simp)]
    rw [if_neg (by simpa using Nat.lt_of_lt_of_le Nat.zero_lt_one hmemlen |>.ne')]
    rw [if_neg (show ¬ count ≤ 0 by omega)]
    rw [show min count.toNat mems.length = mems.length by omega]
    rw [← horder, List.take_length]
    simp [hfilter]
  have hexp2' : (⟨merase s2.data key2, s2.ttl⟩ : Store).expired now key2 =
      (false, ⟨merase s2.data key2, s2.ttl⟩) :=
    @Store.expired_of_future ⟨merase s2.data key2, s2.ttl⟩ now exp2 key2 ht2 (by omega)
  have httl2 : (0 : Int) < Store.TTL ⟨merase s2.data key2, s2.ttl⟩ now key2 := by
    simp only [Store.TTL, ht2]
    rw [if_neg (show ¬ exp2 - now ≤ 0 by omega)]
    exact Int.ofNat_pos.mpr ((Nat.le_div_iff_mul_le (by norm_num)).mpr (by omega))
  refine ⟨⟨?_, ?_, ?_, ?_, ?_, ?_⟩, ⟨?_, ?_, ?_⟩⟩
  · rw [hhdel]
  · rw [hhdel]; exact mlookup_merase s.data key
  · rw [hhdel]; exact ht
  · rw [hhdel]; exact httl
  · rw [hhdel]
    simp [Store.HGet, hexp', mlookup_merase]
  · rw [hhdel]
    simp [Store.Get, hexp', mlookup_merase]
  · rw [hspop]; exact mlookup_merase s2.data key2
  · rw [hspop]; exact ht2
  · rw [hspop]; exact httl2

/-- Concrete instance of `c9_hdel_spop_leave_ttl`: a hash with one field and
a singleton set, both with a 2 s deadline, at `now = 0`. -/
theorem c9_hdel_spop_leave_ttl_witness :
    mlookup (Store.HDel
        ⟨[("h", { emptyValue with typ := .HashType, hash := [("f", "v")] })],
         [("h", 2000000000)]⟩ 0 "h" ["f"]).2.data "h" = none ∧
    0 < (Store.HDel
        ⟨[("h", { emptyValue with typ := .HashType, hash := [("f", "v")] })],
         [("h", 2000000000)]⟩ 0 "h" ["f"]).2.TTL 0 "h" ∧
    mlookup (Store.SPop
        ⟨[("s", { emptyValue with typ := .SetType, set := ["a"] })],
         [("s", 2000000000)]⟩ 0 "s" 1 ["a"]).2.data "s" = none ∧
    0 < (Store.SPop
        ⟨[("s", { emptyValue with typ := .SetType, set := ["a"] })],
         [("s", 2000000000)]⟩ 0 "s" 1 ["a"]).2.TTL 0 "s" := by
  have h := c9_hdel_spop_leave_ttl
    ⟨[("h", { emptyValue with typ := .HashType, hash := [("f", "v")] })],
     [("h", 2000000000)]⟩
    0 2000000000 "h" "f" "v" (by decide) (by decide) (by norm_num)
    ⟨[("s", { emptyValue with typ := .SetType, set := ["a"] })],
     [("s", 2000000000)]⟩
    2000000000 "s" ["a"] ["a"] 1 (by decide) (by decide) (by norm_num)
    (by decide) (List.Perm.refl _) (by norm_num)
  exact ⟨h.1.2.1, h.1.2.2.2.1, h.2.1, h.2.2.2⟩

/-! ## Claim C2 -/

/-- C2 (confirmed): for a key found on the source shard, the migrator issues
the primitives in the fixed order DUMPKEY → MIGRATE_RESTORE → MIGRATE_DELETE
(every trace is a prefix of that sequence); MIGRATE_DELETE is issued only
when the restore completed without error; and in every state of the trace
the key is present in the source store's data map or in the destination
store's data map — never absent from both. -/
theorem c2_migration_order_and_presence (st : MigState) (k : String) (v : Value)
    (hv : mlookup st.src.data k = some v) :
    ((migrateKey st k).map Prod.fst = [MigOp.dump] ∨
     (migrateKey st k).map Prod.fst = [MigOp.dump, MigOp.restore] ∨
     (migrateKey st k).map Prod.fst =
       [MigOp.dump, MigOp.restore, MigOp.migDelete]) ∧
    (MigOp.migDelete ∈ (migrateKey st k).map Prod.fst →
      ∃ kd dest', dumpKey st.src k = some kd ∧
        st.dest.restoreFromDump kd = Except.ok dest') ∧
    (∀ p ∈ migrateKey st k,
      (mlookup p.2.src.data k).isSome = true ∨
        (mlookup p.2.dest.data k).isSome = true) := by
  have hdump : dumpKey st.src k =
      some { key := k, valueType := v.typ, value := serializeValue v,
             ttl := st.src.getExpirationTime k } := by
    simp [dumpKey, Store.getRaw, hv]
  rcases hres : st.dest.restoreFromDump
      { key := k, valueType := v.typ, value := serializeValue v,
        ttl := st.src.getExpirationTime k } with e | dest'
  · have htr : migrateKey st k = [(MigOp.dump, st), (MigOp.restore, st)] := by
      simp only [migrateKey, hdump, hres]
    rw [htr]
    refine ⟨Or.inr (Or.inl rfl), ?_, ?_⟩
    · intro hmem
      simp at hmem
    · intro p hp
      simp only [List.mem_cons, List.not_mem_nil, or_false] at hp
      rcases hp with rfl | rfl
      · left; simp [hv]
      · left; simp [hv]
  · have hdest : (mlookup dest'.data k).isSome = true := by
      simp only [Store.restoreFromDump] at hres
      split at hres
      · cases hres
      · injection hres with h
        rw [← h]
        simp [mlookup_minsert]
    have htr : migrateKey st k =
        [(MigOp.dump, st), (MigOp.restore, { st with dest := dest' }),
         (MigOp.migDelete,
           { src := (st.src.Delete k).2, dest := dest' })] := by
      simp only [migrateKey, hdump, hres]
    rw [htr]
    refine ⟨Or.inr (Or.inr rfl), ?_, ?_⟩
    · intro _
      exact ⟨_, dest', hdump, hres⟩
    · intro p hp
      simp only [List.mem_cons, List.not_mem_nil, or_false] at hp
      rcases hp with rfl | rfl | rfl
      · left; simp [hv]
      · left; simp [hv]
      · right; exact hdest

/-- Concrete instance of `c2_migration_order_and_presence`: a one-key source
store and an empty destination. -/
theorem c2_migration_order_and_presence_witness :
    ((migrateKey ⟨⟨[("k", { emptyValue with data := [118] })], []⟩, NewStore⟩
        "k").map Prod.fst = [MigOp.dump] ∨
     (migrateKey ⟨⟨[("k", { emptyValue with data := [118] })], []⟩, NewStore⟩
        "k").map Prod.fst = [MigOp.dump, MigOp.restore] ∨
     (migrateKey ⟨⟨[("k", { emptyValue with data := [118] })], []⟩, NewStore⟩
        "k").map Prod.fst = [MigOp.dump, MigOp.restore, MigOp.migDelete]) ∧
    (∀ p ∈ migrateKey ⟨⟨[("k", { emptyValue with data := [118] })], []⟩,
        NewStore⟩ "k",
      (mlookup p.2.src.data "k").isSome = true ∨
        (mlookup p.2.dest.data "k").isSome = true) := by
  have h := c2_migration_order_and_presence
    ⟨⟨[("k", { emptyValue with data := [118] })], []⟩, NewStore⟩ "k"
    { emptyValue with data := [118] } (by decide)
  exact ⟨h.1, h.2.2⟩

/-! ## Claim C8 -/

theorem zrange_full_eq (s : Store) (now : Int) (key : String) (v : Value)
    (hv : mlookup s.data key = some v) (htyp : v.typ = .ZSetType)
    (hne : (s.expired now key).1 = false) (ws : Bool) :
    (s.ZRange now key 0 (-1) ws).1 =
      (sortZ v.zset).flatMap
        (fun p => if ws then [p.1, fmtScore p.2] else [p.1]) := by
  have hpair : s.expired now key = (false, s) := by
    rw [show s.expired now key = ((s.expired now key).1, (s.expired now key).2)
          from rfl,
        hne, Store.expired_false_eq hne]
  by_cases hn : (sortZ v.zset).length = 0
  · rw [List.length_eq_zero] at hn
    simp [Store.ZRange, hpair, hv, htyp, hn]
  · have h1 : 1 ≤ (sortZ v.zset).length := Nat.one_le_iff_ne_zero.mpr hn
    have h1' : (1 : Int) ≤ ((sortZ v.zset).length : Int) := by exact_mod_cast h1
    simp only [Store.ZRange, hpair, hv, htyp, ne_eq, not_true_eq_false,
      if_false, hn]
    split_ifs <;> try (exfalso; omega)
    all_goals
      simp only [Int.toNat_zero, List.drop_zero]
      rw [List.take_of_length_le (by omega)]

/-- C8 (confirmed): `ZRange(0, -1)` returns every member of the zset in the
order sorted ascending by score with ties broken by ascending member order
(the sorted pair list is a permutation of the zset, sorted by `zle`), with
scores interleaved under `withScores`; `ZRank` ranks by exactly that order;
and with negative indices counted from the end, a clamped-empty window gives
an empty result. -/
theorem c8_zrange_zrank_order (s : Store) (now : Int) (key : String) (v : Value)
    (hv : mlookup s.data key = some v) (htyp : v.typ = .ZSetType)
    (hne : (s.expired now key).1 = false) :
    ((s.ZRange now key 0 (-1) false).1 = (sortZ v.zset).map Prod.fst ∧
     (s.ZRange now key 0 (-1) true).1 =
       (sortZ v.zset).flatMap (fun p => [p.1, fmtScore p.2])) ∧
    ((sortZ v.zset).Sorted zle ∧ (sortZ v.zset).Perm v.zset) ∧
    (∀ m, (s.ZRank now key m).1 =
       match (sortZ v.zset).findIdx? (fun p => p.1 = m) with
       | some r => ((r : Int), true)
       | none => (0, false)) := by
  have hpair : s.expired now key = (false, s) := by
    rw [show s.expired now key = ((s.expired now key).1, (s.expired now key).2)
          from rfl,
        hne, Store.expired_false_eq hne]
  refine ⟨⟨?_, ?_⟩, ⟨?_, ?_⟩, ?_⟩
  · rw [zrange_full_eq s now key v hv htyp hne false]
    simp only [Bool.false_eq_true, if_false]
    induction sortZ v.zset with
    | nil => rfl
    | cons p l ih => simp [ih]
  · exact zrange_full_eq s now key v hv htyp hne true
  · exact List.sorted_insertionSort zle v.zset
  · exact List.perm_insertionSort zle v.zset
  · intro m
    simp only [Store.ZRank, hpair, hv, htyp, ne_eq, not_true_eq_false,
      if_false]
    rcases hfi : List.findIdx? (fun p => decide (p.1 = m)) (sortZ v.zset)
      with _ | r <;> simp [hfi]

/-- Concrete instance of `c8_zrange_zrank_order` on the spec's tie scenario
`{b ↦ 1, a ↦ 1, c ↦ 2}`. -/
theorem c8_zrange_zrank_order_witness :
    (Store.ZRange
        ⟨[("z", Value.mk .ZSetType [] [] [] none [] [("b", 1), ("a", 1), ("c", 2)])], []⟩
        0 "z" 0 (-1) false).1 =
      (sortZ [("b", 1), ("a", 1), ("c", 2)]).map Prod.fst ∧
    (sortZ [("b", (1 : Rat)), ("a", 1), ("c", 2)]).Sorted zle ∧
    (Store.ZRank
        ⟨[("z", Value.mk .ZSetType [] [] [] none [] [("b", 1), ("a", 1), ("c", 2)])], []⟩
        0 "z" "a").1 =
      match (sortZ [("b", 1), ("a", 1), ("c", 2)]).findIdx?
          (fun p => p.1 = "a") with
      | some r => ((r : Int), true)
      | none => (0, false) := by
  have h := c8_zrange_zrank_order
    ⟨[("z", Value.mk .ZSetType [] [] [] none [] [("b", 1), ("a", 1), ("c", 2)])], []⟩
    0 "z" (Value.mk .ZSetType [] [] [] none [] [("b", 1), ("a", 1), ("c", 2)])
    rfl rfl rfl
  exact ⟨h.1.1, h.2.1.1, h.2.2 "a"⟩

/-! ## Claim C6 -/

/-- C6 counterexample: with an empty token list (a ring built with
`replicas = 0`) and two live shards, the fallback node picked for a
write-creating command depends on the iteration order of the Go `nodeShards`
map — which Go leaves unspecified — so the routing is not a deterministic
function of the key and the live node set, and "the live node at index
hash(key) mod live-node-count" is not well defined. -/
theorem c6_fallback_depends_on_map_order :
    getShardForKey (((NewHashRing 0).AddNode "A").AddNode "B") ["A", "B"]
        "k" "SET" ≠
      getShardForKey (((NewHashRing 0).AddNode "A").AddNode "B") ["B", "A"]
        "k" "SET" := by
  decide

/-- C6 (amended): when the ring has no tokens, a write-creating command
(SET/HSET/SADD/ZADD/LPUSH/RPUSH) with at least one live shard routes to
`order[hash(key) mod live-node-count]` where `order` is the live node set in
the map's (unspecified) iteration order — in particular to *some* live node —
while any other command, or an empty live set, yields the "no shard
available" error. -/
theorem c6_empty_ring_routing (hr : HashRing) (nodeOrder : List String)
    (key cmd : String) (hkeys : hr.keys = []) :
    (writeCreating cmd = true → nodeOrder ≠ [] →
      ExecuteRoute hr nodeOrder cmd key =
        Except.ok (nodeOrder.getD (hashStr key % nodeOrder.length) "") ∧
      nodeOrder.getD (hashStr key % nodeOrder.length) "" ∈ nodeOrder) ∧
    (writeCreating cmd = false →
      ExecuteRoute hr nodeOrder cmd key =
        Except.error ("no shard available for key " ++ key)) ∧
    (nodeOrder = [] →
      ExecuteRoute hr nodeOrder cmd key =
        Except.error ("no shard available for key " ++ key)) := by
  have hGet : hr.GetNode key = none := by
    simp [HashRing.GetNode, hkeys]
  refine ⟨fun hwc hord => ?_, fun hwc => ?_, fun hord => ?_⟩
  · have hlen : 0 < nodeOrder.length := List.length_pos.mpr hord
    have hidx : hashStr key % nodeOrder.length < nodeOrder.length :=
      Nat.mod_lt _ hlen
    have hmem : nodeOrder.getD (hashStr key % nodeOrder.length) "" ∈ nodeOrder := by
      rw [List.getD_eq_getElem?_getD, List.getElem?_eq_getElem hidx]
      exact List.getElem_mem hidx
    refine ⟨?_, hmem⟩
    have hmem' := hmem
    rw [List.getD_eq_getElem?_getD] at hmem'
    simp [ExecuteRoute, getShardForKey, hGet, hwc, hlen, hmem, hmem']
  · simp [ExecuteRoute, getShardForKey, hGet, hwc]
  · subst hord
    simp [ExecuteRoute, getShardForKey, hGet]

/-- Concrete instance of `c6_empty_ring_routing`: a tokenless two-shard ring
routes SET to a live shard and errors on GET. -/
theorem c6_empty_ring_routing_witness :
    ExecuteRoute (((NewHashRing 0).AddNode "A").AddNode "B") ["A", "B"]
        "SET" "k" =
      Except.ok (["A", "B"].getD (hashStr "k" % (["A", "B"] : List String).length) "") ∧
    ExecuteRoute (((NewHashRing 0).AddNode "A").AddNode "B") ["A", "B"]
        "GET" "k" =
      Except.error ("no shard available for key " ++ "k") := by
  have h1 := c6_empty_ring_routing (((NewHashRing 0).AddNode "A").AddNode "B")
    ["A", "B"] "k" "SET" (by decide)
  have h2 := c6_empty_ring_routing (((NewHashRing 0).AddNode "A").AddNode "B")
    ["A", "B"] "k" "GET" (by decide)
  exact ⟨(h1.1 (by decide) (by decide)).1, h2.2.1 (by decide)⟩

/-! ## Claim C4 -/

/-- Correctness of Go's `sort.Search` loop: with `f` monotone below `j`, the
result `r` is bracketed by `i` and `j`, `f` is false strictly below `r`, and
true at `r` whenever `r < j` — i.e. `r` is the least index satisfying `f`,
or `j` if none does. -/
theorem sortSearchAux_spec (f : Nat → Bool) (i j : Nat)
    (mono : ∀ a b, i ≤ a → a ≤ b → b < j → f a = true → f b = true)
    (hij : i ≤ j) (hI : ∀ k, k < i → f k = false) :
    i ≤ sortSearchAux f i j ∧ sortSearchAux f i j ≤ j ∧
    (∀ k, k < sortSearchAux f i j → f k = false) ∧
    (sortSearchAux f i j < j → f (sortSearchAux f i j) = true) := by
  by_cases h : i < j
  · rw [sortSearchAux]
    simp only [h, dite_true]
    by_cases hf : f ((i + j) / 2) = true
    · simp only [hf, if_true]
      have ih := sortSearchAux_spec f i ((i + j) / 2)
        (fun a b ha hab hb => mono a b ha hab (by omega)) (by omega) hI
      refine ⟨ih.1, by omega, ih.2.2.1, fun hr => ?_⟩
      by_cases he : sortSearchAux f i ((i + j) / 2) < (i + j) / 2
      · exact ih.2.2.2 he
      · have : sortSearchAux f i ((i + j) / 2) = (i + j) / 2 := by
          have := ih.2.1
          omega
        rw [this]
        exact hf
    · have hf' : f ((i + j) / 2) = false := by simpa using hf
      simp only [hf', Bool.false_eq_true, if_false]
      have hI' : ∀ k, k < (i + j) / 2 + 1 → f k = false := by
        intro k hk
        by_cases hki : k < i
        · exact hI k hki
        · by_cases hfk : f k = true
          · have := mono k ((i + j) / 2) (by omega) (by omega) (by omega) hfk
            simp [this] at hf
          · simpa using hfk
      have ih := sortSearchAux_spec f ((i + j) / 2 + 1) j
        (fun a b ha hab hb => mono a b (by omega) hab hb) (by omega) hI'
      exact ⟨by omega, ih.2.1, ih.2.2.1, ih.2.2.2⟩
  · rw [sortSearchAux]
    simp only [h, dite_false]
    exact ⟨Nat.le_refl i, hij, hI, fun hc => hc.elim⟩
termination_by j - i
decreasing_by
  all_goals omega

/-- C4 (confirmed): on a ring whose token list is sorted (as `AddNode` and
`RemoveNode` maintain), `GetNode` returns none exactly when the token list is
empty, and otherwise returns the vnode-map binding of the first token ≥ the
FNV-1a hash of the key, wrapping to the token at index 0 when no token
qualifies — the binary search agrees with the first-match specification. -/
theorem c4_getNode_first_token (hr : HashRing) (key : String)
    (hs : hr.keys.Sorted (· ≤ ·)) :
    (hr.GetNode key = none ↔ hr.keys = []) ∧
    hr.GetNode key = GetNodeSpec hr key := by
  by_cases hnil : hr.keys = []
  · constructor
    · simp [HashRing.GetNode, hnil]
    · simp [HashRing.GetNode, GetNodeSpec, hnil]
  · have hlen : 0 < hr.keys.length := List.length_pos.mpr hnil
    have hgetelem : ∀ k (hk : k < hr.keys.length), hr.keys.getD k 0 = hr.keys[k] := by
      intro k hk
      rw [List.getD_eq_getElem?_getD, List.getElem?_eq_getElem hk]
      rfl
    have hsorted : ∀ a b (ha : a < hr.keys.length) (hb : b < hr.keys.length),
        a ≤ b → hr.keys[a] ≤ hr.keys[b] := by
      intro a b ha hb hab
      rcases Nat.eq_or_lt_of_le hab with rfl | hlt
      · exact le_refl _
      · exact List.pairwise_iff_getElem.mp hs a b ha hb hlt
    have hmono : ∀ a b, a ≤ b → b < hr.keys.length →
        (decide (hr.keys.getD a 0 ≥ hashStr key)) = true →
        (decide (hr.keys.getD b 0 ≥ hashStr key)) = true := by
      intro a b hab hb hfa
      have ha : a < hr.keys.length := by omega
      rw [hgetelem a ha] at hfa
      rw [hgetelem b hb]
      simp only [ge_iff_le, decide_eq_true_eq] at hfa ⊢
      exact le_trans hfa (hsorted a b ha hb hab)
    have hspec := sortSearchAux_spec
      (fun i => decide (hr.keys.getD i 0 ≥ hashStr key)) 0 hr.keys.length
      (fun a b _ hab hb hfa => hmono a b hab hb hfa) (Nat.zero_le _)
      (fun k hk => absurd hk (Nat.not_lt_zero k))
    constructor
    · simp only [HashRing.GetNode, GetNodeSpec]
      rw [if_neg (by omega : ¬ hr.keys.length = 0)]
      simp [hnil]
    · simp only [HashRing.GetNode, GetNodeSpec, sortSearch]
      rw [if_neg (by omega : ¬ hr.keys.length = 0), if_neg hnil]
      by_cases hend :
          sortSearchAux (fun i => decide (hr.keys.getD i 0 ≥ hashStr key)) 0
            hr.keys.length = hr.keys.length
      · have hnone : hr.keys.findIdx? (fun t => decide (hashStr key ≤ t)) = none := by
          rw [List.findIdx?_eq_none_iff]
          intro x hx
          rcases List.mem_iff_getElem.mp hx with ⟨k, hk, rfl⟩
          have hthis : decide (hr.keys.getD k 0 ≥ hashStr key) = false :=
            hspec.2.2.1 k (by omega)
          rw [hgetelem k hk] at hthis
          simpa [ge_iff_le] using hthis
        rw [hnone]
        rw [if_pos hend]
      · have hlt : sortSearchAux (fun i => decide (hr.keys.getD i 0 ≥ hashStr key)) 0
            hr.keys.length < hr.keys.length := by
          have := hspec.2.1
          omega
        have hsome : hr.keys.findIdx? (fun t => decide (hashStr key ≤ t)) =
            some (sortSearchAux (fun i => decide (hr.keys.getD i 0 ≥ hashStr key)) 0
              hr.keys.length) := by
          rw [List.findIdx?_eq_some_iff_getElem]
          refine ⟨hlt, ?_, ?_⟩
          · have hthis : decide (hr.keys.getD
                (sortSearchAux (fun i => decide (hr.keys.getD i 0 ≥ hashStr key))
                  0 hr.keys.length) 0 ≥ hashStr key) = true :=
              hspec.2.2.2 hlt
            rw [hgetelem _ hlt] at hthis
            simpa [ge_iff_le] using hthis
          · intro j hj
            have hthis : decide (hr.keys.getD j 0 ≥ hashStr key) = false :=
              hspec.2.2.1 j (by omega)
            rw [hgetelem j (by omega)] at hthis
            simpa [ge_iff_le] using hthis
        rw [hsome]
        rw [if_neg hend]

/-- Concrete instance of `c4_getNode_first_token` on a two-node ring built by
`AddNode` calls (its token list is sorted by construction). -/
theorem c4_getNode_first_token_witness :
    (HashRing.GetNode (((NewHashRing 2).AddNode "A").AddNode "B") "foo" =
        none ↔ (((NewHashRing 2).AddNode "A").AddNode "B").keys = []) ∧
    HashRing.GetNode (((NewHashRing 2).AddNode "A").AddNode "B") "foo" =
      GetNodeSpec (((NewHashRing 2).AddNode "A").AddNode "B") "foo" :=
  c4_getNode_first_token (((NewHashRing 2).AddNode "A").AddNode "B") "foo"
    (by decide)

/-! ## Claim C3 -/

theorem vnodeTokens_length (replicas : Nat) (id : String) :
    (vnodeTokens replicas id).length = replicas := by
  simp [vnodeTokens]

theorem mem_vnodeTokens {replicas : Nat} {id : String} {t : Nat} :
    t ∈ vnodeTokens replicas id ↔
      ∃ i, i < replicas ∧ hashStr (vnodeKey id i) = t := by
  simp [vnodeTokens, List.mem_map, List.mem_range]

theorem vnodeTokens_nodup {replicas : Nat} {ids : List String} {id : String}
    (hinj : VnodeCollisionFree replicas ids) (hid : id ∈ ids) :
    (vnodeTokens replicas id).Nodup := by
  refine List.Nodup.map_on ?_ (List.nodup_range replicas)
  intro i hi j hj heq
  exact (hinj id hid id hid i (List.mem_range.mp hi) j (List.mem_range.mp hj)
    heq).2

theorem flatMap_tokens_nodup {replicas : Nat} {ids : List String}
    (hinj : VnodeCollisionFree replicas ids) :
    ∀ nodes : List String, nodes.Nodup → (∀ n ∈ nodes, n ∈ ids) →
      (nodes.flatMap (vnodeTokens replicas)).Nodup := by
  intro nodes
  induction nodes with
  | nil => simp
  | cons id rest ih =>
    intro hnd hsub
    rw [List.flatMap_cons, List.nodup_append]
    refine ⟨vnodeTokens_nodup hinj (hsub id (by simp)),
      ih (List.nodup_cons.mp hnd).2 (fun n hn => hsub n (by simp [hn])), ?_⟩
    intro t ht1 ht2
    rcases mem_vnodeTokens.mp ht1 with ⟨i, hi, hti⟩
    rcases List.mem_flatMap.mp ht2 with ⟨id', hid', ht'⟩
    rcases mem_vnodeTokens.mp ht' with ⟨i', hi', hti'⟩
    have heq := hinj id (hsub id (by simp)) id'
      (hsub id' (by simp [List.mem_cons, hid'])) i hi i' hi'
      (by rw [hti, hti'])
    exact (List.nodup_cons.mp hnd).1 (heq.1 ▸ hid')

theorem flatMap_tokens_length (replicas : Nat) (nodes : List String) :
    (nodes.flatMap (vnodeTokens replicas)).length = nodes.length * replicas := by
  induction nodes with
  | nil => simp
  | cons id rest ih =>
    simp [List.flatMap_cons, vnodeTokens_length, ih, Nat.succ_mul]
    omega

/-- The vnode-map update loop of `AddNode`: afterwards every token of the new
node maps to it and every other token keeps its old binding. -/
theorem mlookup_foldl_minsert (ts : List Nat) (m : List (Nat × String))
    (id : String) (t : Nat) :
    mlookup (ts.foldl (fun acc hv => minsert acc hv id) m) t =
      if t ∈ ts then some id else mlookup m t := by
  induction ts generalizing m with
  | nil => simp
  | cons x rest ih =>
    simp only [List.foldl_cons]
    rw [ih]
    by_cases hx : t ∈ rest
    · simp [hx]
    · by_cases htx : t = x
      · subst htx
        simp [hx, mlookup_minsert]
      · simp [hx, htx, mlookup_minsert_ne m x t id htx]

/-- The token/vnode-map walk of `RemoveNode`, on a duplicate-free token
list: it keeps exactly the tokens not currently bound to the removed node,
and unbinds exactly the walked tokens bound to it. -/
theorem removeNode_fold_spec (nodeID : String) (ks : List Nat) :
    ∀ (pre : List Nat) (m : List (Nat × String)), ks.Nodup →
    (ks.foldl (fun acc kv =>
        if mlookupD acc.2 kv "" = nodeID then (acc.1, merase acc.2 kv)
        else (acc.1 ++ [kv], acc.2)) (pre, m)).1 =
      pre ++ ks.filter (fun t => ¬ (mlookupD m t "" = nodeID)) ∧
    ∀ t, mlookup (ks.foldl (fun acc kv =>
        if mlookupD acc.2 kv "" = nodeID then (acc.1, merase acc.2 kv)
        else (acc.1 ++ [kv], acc.2)) (pre, m)).2 t =
      if t ∈ ks ∧ mlookupD m t "" = nodeID then none else mlookup m t := by
  induction ks with
  | nil => simp
  | cons kv rest ih =>
    intro pre m hnd
    have hkv : kv ∉ rest := (List.nodup_cons.mp hnd).1
    have hnd' : rest.Nodup := (List.nodup_cons.mp hnd).2
    simp only [List.foldl_cons]
    by_cases hc : mlookupD m kv "" = nodeID
    · rw [if_pos hc]
      have ihm := ih pre (merase m kv) hnd'
      constructor
      · rw [ihm.1]
        have hfc : rest.filter (fun t => ¬ (mlookupD (merase m kv) t "" = nodeID)) =
            rest.filter (fun t => ¬ (mlookupD m t "" = nodeID)) := by
          refine List.filter_congr ?_
          intro t htr
          have htkv : t ≠ kv := fun he => hkv (he ▸ htr)
          rw [mlookupD, mlookup_merase_ne m kv t htkv]
          rfl
        rw [hfc]
        have : (kv :: rest).filter (fun t => ¬ (mlookupD m t "" = nodeID)) =
            rest.filter (fun t => ¬ (mlookupD m t "" = nodeID)) := by
          rw [List.filter_cons]
          simp [hc]
        rw [this]
      · intro t
        rw [ihm.2 t]
        by_cases htkv : t = kv
        · have hTrest : ¬ t ∈ rest := fun h => hkv (htkv ▸ h)
          rw [if_neg (fun hand => hTrest hand.1),
            if_pos ⟨by rw [htkv]; exact List.mem_cons_self kv rest,
              by rw [htkv]; exact hc⟩]
          rw [htkv]
          exact mlookup_merase m kv
        · have h1 : mlookupD (merase m kv) t "" = mlookupD m t "" := by
            rw [mlookupD, mlookupD, mlookup_merase_ne m kv t htkv]
          have h2 : mlookup (merase m kv) t = mlookup m t :=
            mlookup_merase_ne m kv t htkv
          rw [h1, h2]
          by_cases hmem : t ∈ rest
          · simp [hmem, htkv]
          · simp [hmem, htkv]
    · rw [if_neg hc]
      have ihm := ih (pre ++ [kv]) m hnd'
      constructor
      · rw [ihm.1]
        rw [List.filter_cons]
        simp [hc]
      · intro t
        rw [ihm.2 t]
        by_cases htkv : t = kv
        · subst htkv
          have : ¬ (t ∈ rest) := hkv
          simp [this, hc]
        · by_cases hmem : t ∈ rest
          · simp [hmem, htkv]
          · simp [hmem, htkv]

theorem RingWF_AddNode {hr : HashRing} {ids : List String} (id : String)
    (hwf : RingWF hr) (hsub : ∀ n ∈ hr.nodes, n ∈ ids) (hid : id ∈ ids)
    (hinj : VnodeCollisionFree hr.replicas ids) : RingWF (hr.AddNode id) := by
  unfold HashRing.AddNode
  by_cases hmem : id ∈ hr.nodes
  · rw [if_pos hmem]
    exact hwf
  · rw [if_neg hmem]
    refine ⟨?_, ?_, ?_, ?_⟩
    · rw [List.nodup_append]
      exact ⟨hwf.nodes_nodup, List.nodup_singleton id,
        fun a ha hb => hmem ((List.mem_singleton.mp hb) ▸ ha)⟩
    · refine (List.perm_insertionSort _ _).trans ?_
      rw [List.flatMap_append]
      simp only [List.flatMap_cons, List.flatMap_nil, List.append_nil]
      exact hwf.keys_perm.append_right _
    · intro t id' h
      rw [mlookup_foldl_minsert] at h
      by_cases htok : t ∈ vnodeTokens hr.replicas id
      · rw [if_pos htok] at h
        have hids : id = id' := by injection h
        refine ⟨List.mem_append.mpr (Or.inr (by simp [← hids])), hids ▸ htok⟩
      · rw [if_neg htok] at h
        have hold := hwf.map_sound t id' h
        exact ⟨by simp [hold.1], hold.2⟩
    · intro id' hid' t ht
      rw [mlookup_foldl_minsert]
      rcases List.mem_append.mp hid' with hin | hin
      · have htok : ¬ t ∈ vnodeTokens hr.replicas id := by
          intro htok
          rcases mem_vnodeTokens.mp htok with ⟨i, hi, hti⟩
          rcases mem_vnodeTokens.mp ht with ⟨i', hi', hti'⟩
          have heq := hinj id hid id' (hsub id' hin) i hi i' hi'
            (by rw [hti, hti'])
          exact hmem (heq.1 ▸ hin)
        rw [if_neg htok]
        exact hwf.map_complete id' hin t ht
      · have hee : id' = id := by simpa using hin
        subst hee
        rw [if_pos ht]

theorem RingWF_RemoveNode {hr : HashRing} {ids : List String} (nodeID : String)
    (hwf : RingWF hr) (hsub : ∀ n ∈ hr.nodes, n ∈ ids)
    (hinj : VnodeCollisionFree hr.replicas ids) :
    RingWF (hr.RemoveNode nodeID) := by
  unfold HashRing.RemoveNode
  by_cases hmem : nodeID ∈ hr.nodes
  swap
  · rw [if_neg hmem]
    exact hwf
  rw [if_pos hmem]
  have hknd : hr.keys.Nodup := (hwf.keys_perm.nodup_iff).mpr
    (flatMap_tokens_nodup hinj hr.nodes hwf.nodes_nodup hsub)
  have hfold := removeNode_fold_spec nodeID hr.keys [] hr.vnodeMap hknd
  have hown : ∀ t ∈ hr.keys,
      (mlookupD hr.vnodeMap t "" = nodeID ↔
        t ∈ vnodeTokens hr.replicas nodeID) := by
    intro t htk
    rcases List.mem_flatMap.mp ((hwf.keys_perm.mem_iff).mp htk) with
      ⟨idt, hidt, htok⟩
    have hlk : mlookup hr.vnodeMap t = some idt :=
      hwf.map_complete idt hidt t htok
    constructor
    · intro hD
      have hee : idt = nodeID := by
        rw [mlookupD, hlk] at hD
        simpa using hD
      exact hee ▸ htok
    · intro htokN
      rcases mem_vnodeTokens.mp htok with ⟨i, hi, hti⟩
      rcases mem_vnodeTokens.mp htokN with ⟨i', hi', hti'⟩
      have heq := hinj idt (hsub idt hidt) nodeID (hsub nodeID hmem) i hi i'
        hi' (by rw [hti, hti'])
      rw [mlookupD, hlk]
      simpa using heq.1
  refine ⟨?_, ?_, ?_, ?_⟩
  · exact hwf.nodes_nodup.filter _
  · show (hr.keys.foldl _ ([], hr.vnodeMap)).1.Perm _
    rw [hfold.1, List.nil_append]
    have hstep : ∀ ns : List String, (∀ n ∈ ns, n ∈ hr.nodes) →
        (ns.flatMap (vnodeTokens hr.replicas)).filter
          (fun t => ¬ (mlookupD hr.vnodeMap t "" = nodeID)) =
        (ns.filter (fun n => n ≠ nodeID)).flatMap
          (vnodeTokens hr.replicas) := by
      intro ns
      induction ns with
      | nil => simp
      | cons idn rest ih =>
        intro hsubn
        rw [List.flatMap_cons, List.filter_append,
          ih (fun n hn => hsubn n (by simp [hn])), List.filter_cons]
        by_cases hq : idn = nodeID
        · simp only [hq]
          simp
          intro a ha
          have hlk := hwf.map_complete nodeID hmem a ha
          simp [mlookupD, hlk]
        · simp [hq]
          intro a ha
          have hlk := hwf.map_complete idn (hsubn idn (by simp)) a ha
          simp [mlookupD, hlk, hq]
    rw [← hstep hr.nodes (fun n hn => hn)]
    exact hwf.keys_perm.filter _
  · intro t id' h
    rw [hfold.2 t] at h
    by_cases hc : t ∈ hr.keys ∧ mlookupD hr.vnodeMap t "" = nodeID
    · rw [if_pos hc] at h
      cases h
    · rw [if_neg hc] at h
      have hold := hwf.map_sound t id' h
      have hne : id' ≠ nodeID := by
        intro hee
        subst hee
        have htk : t ∈ hr.keys := (hwf.keys_perm.mem_iff).mpr
          (List.mem_flatMap.mpr ⟨id', hold.1, hold.2⟩)
        exact hc ⟨htk, (hown t htk).mpr hold.2⟩
      exact ⟨List.mem_filter.mpr ⟨hold.1, by simpa using hne⟩, hold.2⟩
  · intro id' hid' t ht
    have hin := List.mem_filter.mp hid'
    have hne : id' ≠ nodeID := by simpa using hin.2
    have hlk : mlookup hr.vnodeMap t = some id' :=
      hwf.map_complete id' hin.1 t ht
    rw [hfold.2 t, if_neg]
    · exact hlk
    · intro hand
      have : mlookupD hr.vnodeMap t "" = id' := by
        rw [mlookupD, hlk]
        rfl
      exact hne (this ▸ hand.2)

theorem AddNode_replicas (hr : HashRing) (id : String) :
    (hr.AddNode id).replicas = hr.replicas := by
  unfold HashRing.AddNode
  split <;> rfl

theorem RemoveNode_replicas (hr : HashRing) (id : String) :
    (hr.RemoveNode id).replicas = hr.replicas := by
  unfold HashRing.RemoveNode
  split <;> rfl

theorem AddNode_nodes_sub {hr : HashRing} {ids : List String} {id : String}
    (hsub : ∀ n ∈ hr.nodes, n ∈ ids) (hid : id ∈ ids) :
    ∀ n ∈ (hr.AddNode id).nodes, n ∈ ids := by
  unfold HashRing.AddNode
  split
  · exact hsub
  · intro n hn
    rcases List.mem_append.mp hn with h | h
    · exact hsub n h
    · rwa [List.mem_singleton.mp h]

theorem RemoveNode_nodes_sub {hr : HashRing} {ids : List String} {id : String}
    (hsub : ∀ n ∈ hr.nodes, n ∈ ids) :
    ∀ n ∈ (hr.RemoveNode id).nodes, n ∈ ids := by
  unfold HashRing.RemoveNode
  split
  · intro n hn
    exact hsub n (List.mem_filter.mp hn).1
  · exact hsub

theorem applyOps_WF (replicas : Nat) (ids : List String)
    (hinj : VnodeCollisionFree replicas ids) :
    ∀ (ops : List RingOp) (hr : HashRing), hr.replicas = replicas →
      RingWF hr → (∀ n ∈ hr.nodes, n ∈ ids) →
      (∀ op ∈ ops, op.nodeId ∈ ids) →
      (applyOps hr ops).replicas = replicas ∧ RingWF (applyOps hr ops) ∧
        (∀ n ∈ (applyOps hr ops).nodes, n ∈ ids) := by
  intro ops
  induction ops with
  | nil =>
    intro hr h1 h2 h3 _
    exact ⟨h1, h2, h3⟩
  | cons op rest ih =>
    intro hr h1 h2 h3 hops
    have hinj' : VnodeCollisionFree hr.replicas ids := by
      rw [h1]
      exact hinj
    have hrec := ih (applyOp hr op)
    rw [applyOps, List.foldl_cons]
    cases op with
    | add id =>
      have hidin : id ∈ ids := hops (RingOp.add id) (by simp)
      exact hrec (by rw [applyOp, AddNode_replicas, h1])
        (RingWF_AddNode id h2 h3 hidin hinj')
        (AddNode_nodes_sub h3 hidin)
        (fun o ho => hops o (by simp [ho]))
    | remove id =>
      exact hrec (by rw [applyOp, RemoveNode_replicas, h1])
        (RingWF_RemoveNode id h2 h3 hinj')
        (RemoveNode_nodes_sub h3)
        (fun o ho => hops o (by simp [ho]))

/-- C3 counterexample: `"costarring"` and `"liquid"` collide under FNV-1a 32
(and hence so do all their vnode keys), so after
`AddNode "costarring"; AddNode "liquid"; RemoveNode "costarring"` the ring
holds 2 tokens for 1 live node with 1 replica — the claimed token-count
invariant fails on this mutation sequence. -/
theorem c3_collision_breaks_invariant :
    ¬ ((applyOps (NewHashRing 1)
          [RingOp.add "costarring", RingOp.add "liquid",
           RingOp.remove "costarring"]).keys.length =
        (applyOps (NewHashRing 1)
          [RingOp.add "costarring", RingOp.add "liquid",
           RingOp.remove "costarring"]).nodes.length * 1) := by
  decide

/-- C3 (amended): after any sequence of ring mutations whose node ids have
pairwise-distinct virtual-node hashes (no FNV-1a collisions among the vnode
keys of the mentioned ids), the token count equals live-node-count ×
replicas, and every token in the list resolves through the vnode map to a
live node. -/
theorem c3_ring_invariant (replicas : Nat) (ops : List RingOp)
    (hinj : VnodeCollisionFree replicas (opIds ops)) :
    (applyOps (NewHashRing replicas) ops).keys.length =
      (applyOps (NewHashRing replicas) ops).nodes.length * replicas ∧
    (∀ t ∈ (applyOps (NewHashRing replicas) ops).keys,
      ∃ id, mlookup (applyOps (NewHashRing replicas) ops).vnodeMap t =
          some id ∧
        id ∈ (applyOps (NewHashRing replicas) ops).nodes) := by
  have hbase : RingWF (NewHashRing replicas) := by
    refine ⟨by simp [NewHashRing], by simp [NewHashRing], ?_, ?_⟩
    · intro t id h
      simp [NewHashRing, mlookup] at h
    · intro id h
      simp [NewHashRing] at h
  have h := applyOps_WF replicas (opIds ops) hinj ops (NewHashRing replicas)
    rfl hbase (by simp [NewHashRing])
    (fun op hop => List.mem_map_of_mem _ hop)
  rcases h with ⟨hrep, hwf, _⟩
  constructor
  · rw [hwf.keys_perm.length_eq, flatMap_tokens_length, hrep]
  · intro t ht
    rcases List.mem_flatMap.mp ((hwf.keys_perm.mem_iff).mp ht) with
      ⟨id, hid, htok⟩
    exact ⟨id, hwf.map_complete id hid t htok, hid⟩

/-- Concrete instance of `c3_ring_invariant`: adds of "a" and "b" and a
remove of "a" with 2 replicas, whose four vnode hashes are pairwise
distinct. -/
theorem c3_ring_invariant_witness :
    (applyOps (NewHashRing 2)
        [RingOp.add "a", RingOp.add "b", RingOp.remove "a"]).keys.length =
      (applyOps (NewHashRing 2)
        [RingOp.add "a", RingOp.add "b", RingOp.remove "a"]).nodes.length
        * 2 ∧
    (∀ t ∈ (applyOps (NewHashRing 2)
        [RingOp.add "a", RingOp.add "b", RingOp.remove "a"]).keys,
      ∃ id, mlookup (applyOps (NewHashRing 2)
          [RingOp.add "a", RingOp.add "b", RingOp.remove "a"]).vnodeMap t =
          some id ∧
        id ∈ (applyOps (NewHashRing 2)
          [RingOp.add "a", RingOp.add "b", RingOp.remove "a"]).nodes) :=
  c3_ring_invariant 2 [RingOp.add "a", RingOp.add "b", RingOp.remove "a"]
    (by unfold VnodeCollisionFree; decide)

end MTRedis
